import Mathlib

/-!
Verification of the gomplate template-orchestration core
(src/gomplate.go and src/cmd/gomplate/main.go) against its
natural-language specification.

The Go code is shallowly embedded: pure helpers become Lean functions,
the template engine (an external collaborator per the spec) is an
abstract record of compile/render functions, and the filesystem is an
explicit finite map. Machine-level concerns (durations, file modes)
are out of scope of the claims and are not modelled.
-/

/-! ## Strings: splitting, joining, trimming (models of Go stdlib helpers) -/

/-- Split a character list at every occurrence of `sep`
(model of Go strings.Split semantics: `split [] = [[]]`). -/
def splitCharList (sep : Char) : List Char → List (List Char)
  | [] => [[]]
  | c :: cs =>
    let r := splitCharList sep cs
    if c = sep then [] :: r
    else
      match r with
      | [] => [[c]]
      | x :: xs => (c :: x) :: xs

/-- Split a string on a separator character (Go `strings.Split(s, sep)`). -/
def splitOnChar (sep : Char) (s : String) : List String :=
  (splitCharList sep s.data).map (fun l => String.mk l)

/-- Join a list of segments with a separator (Go `strings.Join`). -/
def joinSegs (sep : String) : List String → String
  | [] => ""
  | [x] => x
  | x :: xs => x ++ sep ++ joinSegs sep xs

/-- Whitespace as trimmed by Go `strings.TrimSpace` (ASCII subset;
the claims only involve ordinary spaces). -/
def isSpaceChar (c : Char) : Bool :=
  c = ' ' || c = '\t' || c = '\n' || c = '\r' || c = Char.ofNat 11 || c = Char.ofNat 12

/-- Model of Go `strings.TrimSpace`: drop leading and trailing whitespace. -/
def trimSpace (s : String) : String :=
  String.mk (((s.data.dropWhile isSpaceChar).reverse.dropWhile isSpaceChar).reverse)

/-! ## Go `path.Clean` / `path.Join`

On this platform `filepath.Clean` and `filepath.Join` coincide with the
slash-separated `path` package versions, so one model serves both. -/

/-- Does the path start with a slash? (Go `path[0] == '/'`). -/
def isRooted (s : String) : Bool :=
  match s.data with
  | [] => false
  | c :: _ => c = '/'

/-- One step of Go `path.Clean`, processing one segment against the
stack of output segments held in reverse order (most recent first).
Empty and "." segments are dropped; ".." pops the latest real segment,
is dropped at the root, and is kept when there is nothing to pop in a
relative path. -/
def cleanPush (rooted : Bool) (acc : List String) (seg : String) : List String :=
  if seg = "" then acc
  else if seg = "." then acc
  else if seg = ".." then
    match acc with
    | [] => if rooted then [] else [".."]
    | a :: rest => if a = ".." then ".." :: a :: rest else rest
  else seg :: acc

/-- The segments of the cleaned path, in order. -/
def goCleanSegs (p : String) : List String :=
  ((splitOnChar '/' p).foldl (cleanPush (isRooted p)) []).reverse

/-- Model of Go `path.Clean` (= `filepath.Clean` on slash platforms). -/
def goClean (p : String) : String :=
  if p = "" then "."
  else
    let s := joinSegs "/" (goCleanSegs p)
    if isRooted p then "/" ++ s
    else if s = "" then "." else s

/-- Model of the two-argument Go `path.Join` / `filepath.Join`:
non-empty elements are joined with a slash and the result cleaned;
all-empty input yields the empty string. -/
def goJoin (a b : String) : String :=
  if a = "" && b = "" then ""
  else if a = "" then goClean b
  else goClean (a ++ "/" ++ b)

example : goClean "a/b/.." = "a" := by decide
example : goClean "" = "." := by decide
example : goClean "/.." = "/" := by decide
example : goClean "../../x" = "../../x" := by decide
example : goClean "./a//b/" = "a/b" := by decide
example : goJoin "out" "a/../b" = "out/b" := by decide
example : goJoin "" "b" = "b" := by decide
example : trimSpace "  a/b.out  " = "a/b.out" := by decide

/-! ## Go maps

A Go `map[string]V` is modelled as an association list where an
assignment appends a pair and lookup takes the latest binding, so that
`m[k] = v` has last-wins semantics. Map equality in the theorems is
extensional, through `mapLookup`. -/

/-- Association-list model of `map[string]α`. -/
abbrev GoMap (α : Type) : Type := List (String × α)

/-- The Go assignment `m[k] = v`. -/
def mapSet {α : Type} (m : GoMap α) (k : String) (v : α) : GoMap α :=
  m ++ [(k, v)]

/-- Lookup of the latest binding of `k` (Go map indexing). -/
def mapLookup {α : Type} : GoMap α → String → Option α
  | [], _ => none
  | (k0, v) :: rest, k =>
    match mapLookup rest k with
    | some r => some r
    | none => if k0 = k then some v else none

theorem mapLookup_append {α : Type} (m w : GoMap α) (k : String) :
    mapLookup (m ++ w) k =
      match mapLookup w k with
      | some v => some v
      | none => mapLookup m k := by
  induction m with
  | nil => simp [mapLookup]; cases mapLookup w k <;> rfl
  | cons p m ih =>
    cases p with
    | mk k0 v =>
      simp only [List.cons_append, mapLookup, List.append_eq]
      rw [ih]
      cases hw : mapLookup w k <;> cases hm : mapLookup m k <;> simp

theorem mapLookup_none_of_not_key {α : Type} (w : GoMap α) (k : String)
    (h : ∀ kv ∈ w, kv.1 ≠ k) : mapLookup w k = none := by
  induction w with
  | nil => rfl
  | cons p w ih =>
    cases p with
    | mk k0 v =>
      have hk0 : k0 ≠ k := h (k0, v) (List.mem_cons_self _ _)
      have hw : mapLookup w k = none := ih (fun kv hkv => h kv (List.mem_cons_of_mem _ hkv))
      simp [mapLookup, hw, hk0]

theorem mapLookup_of_mem_nodup {α : Type} (w : GoMap α) (k : String) (v : α)
    (hnd : (w.map Prod.fst).Nodup) (hmem : (k, v) ∈ w) : mapLookup w k = some v := by
  induction w with
  | nil => cases hmem
  | cons p w ih =>
    cases p with
    | mk k0 v0 =>
      simp only [List.map_cons, List.nodup_cons] at hnd
      rcases List.mem_cons.mp hmem with h | h
      · cases h
        have : mapLookup w k = none := by
          apply mapLookup_none_of_not_key
          intro kv hkv hkk
          exact hnd.1 (hkk ▸ List.mem_map_of_mem Prod.fst hkv)
        simp [mapLookup, this]
      · have := ih hnd.2 h
        simp [mapLookup, this]

theorem mapLookup_filter_key {α : Type} (m : GoMap α) (p : String → Bool) (k : String) :
    mapLookup (m.filter (fun kv => p kv.1)) k =
      if p k then mapLookup m k else none := by
  induction m with
  | nil => simp [mapLookup]
  | cons kv m ih =>
    cases kv with
    | mk k0 v =>
      by_cases hp : p k0
      · simp only [List.filter_cons, hp, if_true, mapLookup, ih]
        by_cases hk : p k
        · simp [hk]
        · have hne : k0 ≠ k := by
            intro h
            rw [h] at hp
            exact hk hp
          simp [hk, hne]
      · simp only [List.filter_cons, hp, if_false, mapLookup, ih, Bool.false_eq_true]
        by_cases hk : p k
        · have hne : k0 ≠ k := by
            intro h
            rw [h] at hp
            exact hp hk
          simp only [mapLookup, hk, if_true, hne, if_false]
          cases mapLookup m k <;> rfl
        · simp [mapLookup, hk]

/-! ## Filesystem model and the alias resolver (src/gomplate.go, parseTemplateArg{s})

The filesystem seen through `fs.Stat` / `afero.ReadDir` is a finite map
from path to node. A node is a plain file, a readable directory with
its immediate entries, or a directory whose listing fails (so that the
`afero.ReadDir` error branch is representable). A path absent from the
map makes `Stat` fail. -/

/-- One immediate directory entry, as returned by `afero.ReadDir`. -/
structure DirEntry where
  name : String
  isDir : Bool
deriving DecidableEq, Repr

/-- A filesystem node. -/
inductive FsNode where
  | file : FsNode
  | dir : List DirEntry → FsNode
  | dirUnreadable : String → FsNode
deriving DecidableEq, Repr

/-- The filesystem, keyed by path. -/
abbrev Fs : Type := GoMap FsNode

/-- Model of `strings.SplitN(arg, "=", 2)`. -/
def splitArgN2 (s : String) : List String :=
  match splitOnChar '=' s with
  | [] => [s]
  | [x] => [x]
  | x :: rest => [x, joinSegs "=" rest]

/-- The alias part of a template argument (`""` when no `=` is present). -/
def argAlias (arg : String) : String :=
  match splitArgN2 arg with
  | [a, _] => a
  | _ => ""

/-- The path part of a template argument. -/
def argPath (arg : String) : String :=
  match splitArgN2 arg with
  | [_, p] => p
  | _ => arg

/-- The key prefix used for directory entries: the alias when given,
else the original directory path. -/
def argPfx (arg : String) : String :=
  if argAlias arg = "" then argPath arg else argAlias arg

/-- Embedding of `parseTemplateArg` (src/gomplate.go lines 74-108):
split the argument into alias and path, stat the path; on a stat or
listing error return it; for a directory register each immediate
non-directory entry under `path.Join(prefix, name)`; for a file
register the alias (or the path itself) directly. -/
def parseTemplateArg (fs : Fs) (arg : String) (ta : GoMap String) :
    Except String (GoMap String) :=
  let als := argAlias arg
  let pth := argPath arg
  match mapLookup fs pth with
  | none => Except.error ("stat " ++ pth ++ ": no such file or directory")
  | some (FsNode.dirUnreadable e) => Except.error e
  | some (FsNode.dir files) =>
    Except.ok (files.foldl
      (fun m f =>
        if f.isDir then m
        else mapSet m (goJoin (argPfx arg) f.name) (goJoin pth f.name)) ta)
  | some FsNode.file =>
    if als = "" then Except.ok (mapSet ta pth pth)
    else Except.ok (mapSet ta als pth)

/-- Embedding of `parseTemplateArgs` (src/gomplate.go lines 63-72),
generalized over the map accumulated so far: process the arguments in
order, returning the first error and no map at all on failure. -/
def parseTemplateArgsFrom (fs : Fs) (ta : GoMap String) :
    List String → Except String (GoMap String)
  | [] => Except.ok ta
  | arg :: rest =>
    match parseTemplateArg fs arg ta with
    | Except.error e => Except.error e
    | Except.ok ta1 => parseTemplateArgsFrom fs ta1 rest

/-- Embedding of `parseTemplateArgs`: starts from the empty alias map. -/
def parseTemplateArgs (fs : Fs) (args : List String) :
    Except String (GoMap String) :=
  parseTemplateArgsFrom fs [] args

/-- The bindings a single argument appends to the alias map
(a characterization used in the theorems, derived from
`parseTemplateArg`). -/
def argWrites (fs : Fs) (arg : String) : List (String × String) :=
  let pth := argPath arg
  match mapLookup fs pth with
  | none => []
  | some (FsNode.dirUnreadable _) => []
  | some (FsNode.dir files) =>
    (files.filter (fun f => !f.isDir)).map
      (fun f => (goJoin (argPfx arg) f.name, goJoin pth f.name))
  | some FsNode.file =>
    if argAlias arg = "" then [(pth, pth)] else [(argAlias arg, pth)]

/-- Does processing the argument succeed? -/
def argOk (fs : Fs) (arg : String) : Bool :=
  match mapLookup fs (argPath arg) with
  | none => false
  | some (FsNode.dirUnreadable _) => false
  | some _ => true

/-- The error produced for a failing argument. -/
def argErr (fs : Fs) (arg : String) : String :=
  match mapLookup fs (argPath arg) with
  | none => "stat " ++ argPath arg ++ ": no such file or directory"
  | some (FsNode.dirUnreadable e) => e
  | some _ => ""

/-- The concatenated bindings of a whole argument list. -/
def allWrites (fs : Fs) (args : List String) : List (String × String) :=
  (args.map (argWrites fs)).flatten

theorem dir_foldl_eq_append (files : List DirEntry) (pfx pth : String) (ta : GoMap String) :
    files.foldl
      (fun m f =>
        if f.isDir then m
        else mapSet m (goJoin pfx f.name) (goJoin pth f.name)) ta
    = ta ++ (files.filter (fun f => !f.isDir)).map
        (fun f => (goJoin pfx f.name, goJoin pth f.name)) := by
  induction files generalizing ta with
  | nil => simp
  | cons f rest ih =>
    cases hd : f.isDir with
    | true => simp [List.foldl_cons, hd, List.filter_cons, ih]
    | false =>
      simp only [List.foldl_cons, hd, Bool.false_eq_true, if_false]
      rw [ih]
      simp [mapSet, List.filter_cons, hd, List.append_assoc]

theorem parseTemplateArg_ok_eq (fs : Fs) (arg : String) (ta : GoMap String)
    (h : argOk fs arg = true) :
    parseTemplateArg fs arg ta = Except.ok (ta ++ argWrites fs arg) := by
  simp only [parseTemplateArg, argWrites]
  unfold argOk at h
  cases hfs : mapLookup fs (argPath arg) with
  | none => rw [hfs] at h; simp at h
  | some node =>
    rw [hfs] at h
    cases node with
    | file =>
      by_cases ha : argAlias arg = ""
      · simp [ha, mapSet]
      · simp [ha, mapSet]
    | dir files => simp [dir_foldl_eq_append]
    | dirUnreadable e => simp at h

theorem parseTemplateArg_err_eq (fs : Fs) (arg : String) (ta : GoMap String)
    (h : argOk fs arg = false) :
    parseTemplateArg fs arg ta = Except.error (argErr fs arg) := by
  simp only [parseTemplateArg, argErr]
  unfold argOk at h
  cases hfs : mapLookup fs (argPath arg) with
  | none => rfl
  | some node =>
    rw [hfs] at h
    cases node with
    | file => simp at h
    | dir files => simp at h
    | dirUnreadable e => rfl

theorem allWrites_cons (fs : Fs) (a : String) (args : List String) :
    allWrites fs (a :: args) = argWrites fs a ++ allWrites fs args := by
  simp [allWrites]

theorem parseTemplateArgsFrom_ok (fs : Fs) (args : List String) (ta : GoMap String)
    (h : ∀ a ∈ args, argOk fs a = true) :
    parseTemplateArgsFrom fs ta args = Except.ok (ta ++ allWrites fs args) := by
  induction args generalizing ta with
  | nil => simp [parseTemplateArgsFrom, allWrites]
  | cons a args ih =>
    have ha : argOk fs a = true := h a (List.mem_cons_self _ _)
    have hrest : ∀ x ∈ args, argOk fs x = true :=
      fun x hx => h x (List.mem_cons_of_mem _ hx)
    simp only [parseTemplateArgsFrom, parseTemplateArg_ok_eq fs a ta ha]
    rw [ih _ hrest, allWrites_cons, List.append_assoc]

theorem parseTemplateArgsFrom_err (fs : Fs) (pre post : List String) (bad : String)
    (ta : GoMap String)
    (hpre : ∀ a ∈ pre, argOk fs a = true) (hbad : argOk fs bad = false) :
    parseTemplateArgsFrom fs ta (pre ++ bad :: post) = Except.error (argErr fs bad) := by
  induction pre generalizing ta with
  | nil =>
    simp [parseTemplateArgsFrom, parseTemplateArg_err_eq fs bad ta hbad]
  | cons a pre ih =>
    have ha : argOk fs a = true := hpre a (List.mem_cons_self _ _)
    simp only [List.cons_append, parseTemplateArgsFrom,
      parseTemplateArg_ok_eq fs a ta ha]
    exact ih _ (fun x hx => hpre x (List.mem_cons_of_mem _ hx))

theorem allWrites_append (fs : Fs) (xs ys : List String) :
    allWrites fs (xs ++ ys) = allWrites fs xs ++ allWrites fs ys := by
  simp [allWrites]

theorem mapLookup_allWrites_none (fs : Fs) (k : String) (post : List String)
    (h : ∀ a ∈ post, mapLookup (argWrites fs a) k = none) :
    mapLookup (allWrites fs post) k = none := by
  induction post with
  | nil => rfl
  | cons a post ih =>
    rw [allWrites_cons, mapLookup_append,
      ih (fun x hx => h x (List.mem_cons_of_mem _ hx))]
    simpa using h a (List.mem_cons_self _ _)

/-! ## Rendering context values and the template engine collaborator

The `interface\x7b\x7d` values living in the rendering context: the
context may be the dedicated mapping type (Go `*context`, declared
outside the modeled sources), a string, or any other opaque value.
`Value.map` is *modelled from the spec*: "either (a) a mapping from
alias to a data-source accessor value ... or (b) an arbitrary single
value when the caller designates one data source as the root context".

The template engine is the external "compile and execute" collaborator
(out of scope per the spec): an abstract pair of functions, where a
compiled template is identified by its source text and rendering
returns the text written to the output buffer. -/

mutual
/-- A context value (an `interface` value in Go). -/
inductive Value where
  | str : String → Value
  | map : List VEntry → Value
  | other : Nat → Value
/-- One entry of the Go mapping type: a key and its value. -/
inductive VEntry where
  | mk : String → Value → VEntry
end

/-- The key of a context entry. -/
def VEntry.key : VEntry → String
  | VEntry.mk k _ => k

/-- The value of a context entry. -/
def VEntry.val : VEntry → Value
  | VEntry.mk _ v => v

/-- View of the Go mapping type as an association list. -/
def vmap (l : List VEntry) : GoMap Value :=
  l.map (fun e => (e.key, e.val))

/-- The opaque template engine collaborator. -/
structure TemplateEngine where
  compile : String → Except String Unit
  render : String → GoMap Value → Except String String

/-- The fields of the `gomplate` struct that the namers use. -/
structure Gomplate where
  engine : TemplateEngine
  context : Value

/-! ## Output namers (src/gomplate.go lines 159-205) -/

/-- Embedding of `simpleNamer` (src/gomplate.go lines 166-171):
join the input path onto the output directory, then clean. -/
def simpleNamer (outDir : String) : String → Except String String :=
  fun inPath =>
    let outPath := goJoin outDir inPath
    Except.ok (goClean outPath)

/-- The static strategy as the spec words it:
`output(inputPath) = clean(join(outputDir, inputPath))`. -/
def specStaticOutput (outDir inPath : String) : String :=
  goClean (goJoin outDir inPath)

/-- Embedding of the derived-context construction inside `mappingNamer`
(src/gomplate.go lines 185-196): when the rendering context is the
mapping type, shallow-copy every entry except the reserved keys "in"
and "ctx" into a fresh mapping (otherwise start from an empty one),
then set "ctx" to the original full context and "in" to the input
identifier. -/
def mappingNamerCtx (g : Gomplate) (inPath : String) : GoMap Value :=
  let base : GoMap Value :=
    match g.context with
    | Value.map m => (vmap m).filter (fun kv => kv.1 != "in" && kv.1 != "ctx")
    | _ => []
  mapSet (mapSet base "ctx" g.context) "in" (Value.str inPath)

/-- Events observable against the engine while naming one input. -/
inductive NamerEvent where
  | compileMap : String → NamerEvent
  | renderMap : String → NamerEvent
deriving DecidableEq, Repr

/-- Embedding of the closure returned by `mappingNamer`
(src/gomplate.go lines 173-205), instrumented with the engine events it
performs: each invocation builds a `tplate` for the output map, compiles
it (`toGoTemplate`), builds the derived context, executes the compiled
template into a buffer, and cleans the trimmed buffer contents. -/
def mappingNamerTraced (outMap : String) (g : Gomplate) (inPath : String) :
    Except String String × List NamerEvent :=
  match g.engine.compile outMap with
  | Except.error e => (Except.error e, [NamerEvent.compileMap outMap])
  | Except.ok _ =>
    let ctx := mappingNamerCtx g inPath
    match g.engine.render outMap ctx with
    | Except.error e =>
      (Except.error ("failed to render outputMap with inPath " ++ inPath ++ ": " ++ e),
       [NamerEvent.compileMap outMap, NamerEvent.renderMap inPath])
    | Except.ok out =>
      (Except.ok (goClean (trimSpace out)),
       [NamerEvent.compileMap outMap, NamerEvent.renderMap inPath])

/-- The value returned by the `mappingNamer` closure. -/
def mappingNamer (outMap : String) (g : Gomplate) : String → Except String String :=
  fun inPath => (mappingNamerTraced outMap g inPath).1

/-- The derived context as the spec describes it, as a lookup function:
the reserved key "in" holds the input identifier, the reserved key
"ctx" holds the original full context, and every other key is read
from the ambient mapping entries (absent when the context is a single
root value). -/
def specDerivedLookup (g : Gomplate) (inPath : String) (k : String) : Option Value :=
  if k = "in" then some (Value.str inPath)
  else if k = "ctx" then some g.context
  else
    match g.context with
    | Value.map m => mapLookup (vmap m) k
    | _ => none

/-- The configuration fields consumed by `chooseNamer`. -/
structure Config where
  outputDir : String
  outputMap : String

/-- Embedding of `chooseNamer` (src/gomplate.go lines 159-164). -/
def chooseNamer (o : Config) (g : Gomplate) : String → Except String String :=
  if o.outputMap = "" then simpleNamer o.outputDir
  else mappingNamer o.outputMap g

/-- All engine events produced by naming a sequence of inputs through
the dynamic strategy. -/
def namerEventsOn (outMap : String) (g : Gomplate) (inputs : List String) :
    List NamerEvent :=
  inputs.foldl (fun acc i => acc ++ (mappingNamerTraced outMap g i).2) []

/-- How many compile events a trace holds. -/
def compileCount (evs : List NamerEvent) : Nat :=
  (evs.filter (fun e =>
    match e with
    | NamerEvent.compileMap _ => true
    | _ => false)).length

/-! ## Execution engine (src/gomplate.go lines 31-48 and 135-157)

A gathered descriptor carries its name, the outcome of compiling it
(`toGoTemplate`), the outcome of executing the compiled template
against the shared context (both opaque engine results), and its
target. The target is modelled by the two capabilities the code
inspects: does it implement `io.Closer`, and is it `os.Stdout`. -/

/-- The writable destination of a descriptor. -/
structure Target where
  isCloser : Bool
  isStdout : Bool
deriving DecidableEq, Repr

/-- A gathered template descriptor (`tplate`) together with the opaque
engine outcomes for it. -/
structure Tplate where
  name : String
  compileResult : Except String Unit
  execResult : Except String Unit
  target : Target

/-- Embedding of `runTemplate` (src/gomplate.go lines 32-48): compile;
on success arrange to close the target afterwards when it is an
`io.Closer` other than `os.Stdout`; execute. Returns the execution
result together with whether the target got closed. -/
def runTemplate (t : Tplate) : Except String Unit × Bool :=
  match t.compileResult with
  | Except.error e => (Except.error e, false)
  | Except.ok _ =>
    let closed := t.target.isCloser && !t.target.isStdout
    (t.execResult, closed)

/-- The metrics counters the claims are about. The duration fields of
the Go `Metrics` are wall-clock values and are not modelled. -/
structure Metrics where
  templatesGathered : Nat
  templatesProcessed : Nat
  errors : Nat
deriving DecidableEq, Repr

/-- `newMetrics`: all counters zero. -/
def newMetrics : Metrics :=
  { templatesGathered := 0, templatesProcessed := 0, errors := 0 }

/-- Embedding of the render loop of `runTemplates` (src/gomplate.go
lines 146-155): run each descriptor in order; on error increment the
error counter and return the error, otherwise increment the processed
counter and continue. Also returns the names of the descriptors on
which `runTemplate` was invoked, in order. -/
def runTemplatesLoop (ms : Metrics) :
    List Tplate → Except String Unit × Metrics × List String
  | [] => (Except.ok (), ms, [])
  | t :: ts =>
    match runTemplate t with
    | (Except.error e, _) =>
      (Except.error e, { ms with errors := ms.errors + 1 }, [t.name])
    | (Except.ok _, _) =>
      match runTemplatesLoop
        { ms with templatesProcessed := ms.templatesProcessed + 1 } ts with
      | (res, ms2, rendered) => (res, ms2, t.name :: rendered)

/-- Embedding of `runTemplates` (src/gomplate.go lines 135-157) on the
successfully gathered descriptor list: metrics start from `newMetrics`
(reset in `RunTemplates`), the gathered count is recorded, and the
loop runs. `gatherTemplates` itself lives outside the modeled sources;
its successful result is the given list. -/
def runTemplates (tmpl : List Tplate) : Except String Unit × Metrics × List String :=
  runTemplatesLoop { newMetrics with templatesGathered := tmpl.length } tmpl

/-- Embedding of the orchestration order in `RunTemplates`
(src/gomplate.go lines 111-133) for the claims about alias failures:
the template-alias arguments are resolved first; on failure that error
is returned and nothing is gathered or rendered. Datasource and
context construction are external collaborators assumed successful;
gathering is abstracted as the given descriptor list (modelled from
the spec, `gatherTemplates` is outside the modeled sources). -/
def runTemplatesTop (fs : Fs) (templateArgs : List String)
    (gathered : List Tplate) : Except String Unit × Metrics × List String :=
  match parseTemplateArgs fs templateArgs with
  | Except.error e => (Except.error e, newMetrics, [])
  | Except.ok _ => runTemplates gathered

/-! ## Include processing (src/cmd/gomplate/main.go lines 104-117) -/

/-- Embedding of `processIncludes`: when any includes are given, start
from a blanket "*" exclusion followed by one negated pattern per
include, then append the explicit excludes. -/
def processIncludes (includes excludes : List String) : List String :=
  let out : List String :=
    if includes.length > 0 then
      "*" :: includes.map (fun i => "!" ++ i)
    else []
  out ++ excludes

instance : DecidableEq (Except String Unit) := fun a b =>
  match a, b with
  | Except.ok (), Except.ok () => isTrue rfl
  | Except.error e, Except.error f =>
    if h : e = f then isTrue (by rw [h])
    else isFalse (fun hh => by cases hh; exact h rfl)
  | Except.ok _, Except.error _ => isFalse (fun hh => by cases hh)
  | Except.error _, Except.ok _ => isFalse (fun hh => by cases hh)

/-! ## Normal form of cleaned paths

The cleaned segment list contains no empty and no "." segment, and its
".." segments (possible only for relative paths) form a contiguous
leading block. The invariant is phrased on the reversed segment stack
used by `cleanPush`. -/

/-- Scanning from the most recent segment of the stack: once ".." is
seen, everything older must be ".." as well. -/
def ddSuffix : List String → Bool
  | [] => true
  | s :: rest => if s = ".." then rest.all (fun x => x == "..") else ddSuffix rest

/-- A cleaned segment list in output order is normalized: no empty or
"." segments, and ".."s only as a leading block. -/
def segsNormalized (l : List String) : Bool :=
  l.all (fun s => s != "" && s != ".") && ddSuffix l.reverse

/-- Invariant of the `cleanPush` stack. -/
def AccGood (rooted : Bool) (acc : List String) : Prop :=
  (∀ s ∈ acc, s ≠ "" ∧ s ≠ ".") ∧ ddSuffix acc = true
    ∧ (rooted = true → ∀ s ∈ acc, s ≠ "..")

theorem accGood_nil (rooted : Bool) : AccGood rooted [] :=
  ⟨fun s hs => absurd hs (List.not_mem_nil s), rfl,
   fun _ s hs => absurd hs (List.not_mem_nil s)⟩

theorem cleanPush_good (rooted : Bool) (acc : List String) (seg : String)
    (h : AccGood rooted acc) : AccGood rooted (cleanPush rooted acc seg) := by
  obtain ⟨h1, h2, h3⟩ := h
  unfold cleanPush
  by_cases he : seg = ""
  · rw [if_pos he]; exact ⟨h1, h2, h3⟩
  rw [if_neg he]
  by_cases hd : seg = "."
  · rw [if_pos hd]; exact ⟨h1, h2, h3⟩
  rw [if_neg hd]
  by_cases hdd : seg = ".."
  · rw [if_pos hdd]
    cases acc with
    | nil =>
      cases rooted with
      | true => simpa using accGood_nil true
      | false =>
        simp only [Bool.false_eq_true, if_false]
        refine ⟨?_, rfl, ?_⟩
        · intro s hs
          rw [List.mem_singleton] at hs
          subst hs
          exact ⟨by decide, by decide⟩
        · intro hr
          cases hr
    | cons a rest =>
      show AccGood rooted (if a = ".." then ".." :: a :: rest else rest)
      by_cases ha : a = ".."
      · rw [if_pos ha]
        refine ⟨?_, ?_, ?_⟩
        · intro s hs
          rcases List.mem_cons.mp hs with rfl | hs
          · exact ⟨by decide, by decide⟩
          · exact h1 s hs
        · have hall : rest.all (fun x => x == "..") = true := by
            have := h2
            rw [ddSuffix, if_pos ha] at this
            exact this
          simp only [ddSuffix, if_pos rfl, List.all_cons, hall, Bool.and_true]
          simp [ha]
        · intro hr
          exact absurd ha (h3 hr a (List.mem_cons_self _ _))
      · rw [if_neg ha]
        refine ⟨?_, ?_, ?_⟩
        · intro s hs
          exact h1 s (List.mem_cons_of_mem _ hs)
        · have := h2
          rw [ddSuffix, if_neg ha] at this
          exact this
        · intro hr s hs
          exact h3 hr s (List.mem_cons_of_mem _ hs)
  · rw [if_neg hdd]
    refine ⟨?_, ?_, ?_⟩
    · intro s hs
      rcases List.mem_cons.mp hs with rfl | hs
      · exact ⟨he, hd⟩
      · exact h1 s hs
    · rw [ddSuffix, if_neg hdd]
      exact h2
    · intro hr s hs
      rcases List.mem_cons.mp hs with rfl | hs
      · exact hdd
      · exact h3 hr s hs

theorem foldl_cleanPush_good (rooted : Bool) (segs : List String) (acc : List String)
    (h : AccGood rooted acc) : AccGood rooted (segs.foldl (cleanPush rooted) acc) := by
  induction segs generalizing acc with
  | nil => exact h
  | cons s segs ih => exact ih _ (cleanPush_good rooted acc s h)

theorem goCleanSegs_good (p : String) :
    AccGood (isRooted p) (goCleanSegs p).reverse := by
  unfold goCleanSegs
  rw [List.reverse_reverse]
  exact foldl_cleanPush_good _ _ _ (accGood_nil _)

theorem segsNormalized_goCleanSegs (p : String) :
    segsNormalized (goCleanSegs p) = true := by
  obtain ⟨h1, h2, _⟩ := goCleanSegs_good p
  unfold segsNormalized
  rw [Bool.and_eq_true]
  constructor
  · rw [List.all_eq_true]
    intro s hs
    have hh := h1 s (List.mem_reverse.mpr hs)
    simp [bne_iff_ne, hh.1, hh.2]
  · exact h2

theorem goCleanSegs_rooted_no_dotdot (p : String) (h : isRooted p = true) :
    (goCleanSegs p).all (fun s => s != "..") = true := by
  obtain ⟨_, _, h3⟩ := goCleanSegs_good p
  rw [List.all_eq_true]
  intro s hs
  have := h3 h s (List.mem_reverse.mpr hs)
  simp [bne_iff_ne, this]

/-! ## Helper lemmas for the namers and the execution loop -/

theorem mapLookup_single {α : Type} (a k : String) (v : α) :
    mapLookup [(a, v)] k = if a = k then some v else none := by
  simp [mapLookup]

theorem mapLookup_filter_reserved (m : GoMap Value) (k : String) :
    mapLookup (m.filter (fun kv => kv.1 != "in" && kv.1 != "ctx")) k =
      if k = "in" ∨ k = "ctx" then none else mapLookup m k := by
  have h := mapLookup_filter_key m (fun x => x != "in" && x != "ctx") k
  by_cases hk : k = "in" ∨ k = "ctx"
  · rw [if_pos hk]
    rcases hk with hk | hk <;> subst hk <;> simpa using h
  · rw [if_neg hk]
    push_neg at hk
    have hb : ((k != "in" && k != "ctx") : Bool) = true := by
      simp [bne_iff_ne, hk.1, hk.2]
    rw [hb] at h
    simpa using h

theorem runTemplatesLoop_all_ok (ms : Metrics) (ts : List Tplate)
    (h : ∀ u ∈ ts, (runTemplate u).1 = Except.ok ()) :
    runTemplatesLoop ms ts =
      (Except.ok (),
       { ms with templatesProcessed := ms.templatesProcessed + ts.length },
       ts.map Tplate.name) := by
  induction ts generalizing ms with
  | nil => simp [runTemplatesLoop]
  | cons t ts ih =>
    have ht := h t (List.mem_cons_self _ _)
    have hrest : ∀ u ∈ ts, (runTemplate u).1 = Except.ok () :=
      fun u hu => h u (List.mem_cons_of_mem _ hu)
    cases hrt : runTemplate t with
    | mk r c =>
      rw [hrt] at ht
      simp only at ht
      subst ht
      simp only [runTemplatesLoop, hrt]
      rw [ih _ hrest]
      have harith : ms.templatesProcessed + 1 + ts.length
          = ms.templatesProcessed + (ts.length + 1) := by omega
      simp [harith]

theorem runTemplatesLoop_fail (ms : Metrics) (pre post : List Tplate) (t : Tplate)
    (e : String)
    (hpre : ∀ u ∈ pre, (runTemplate u).1 = Except.ok ())
    (ht : (runTemplate t).1 = Except.error e) :
    runTemplatesLoop ms (pre ++ t :: post) =
      (Except.error e,
       { ms with templatesProcessed := ms.templatesProcessed + pre.length,
                 errors := ms.errors + 1 },
       pre.map Tplate.name ++ [t.name]) := by
  induction pre generalizing ms with
  | nil =>
    cases hrt : runTemplate t with
    | mk r c =>
      rw [hrt] at ht
      simp only at ht
      subst ht
      simp [runTemplatesLoop, hrt]
  | cons u pre ih =>
    have hu := hpre u (List.mem_cons_self _ _)
    have hrest : ∀ x ∈ pre, (runTemplate x).1 = Except.ok () :=
      fun x hx => hpre x (List.mem_cons_of_mem _ hx)
    cases hru : runTemplate u with
    | mk r c =>
      rw [hru] at hu
      simp only at hu
      subst hu
      simp only [List.cons_append, runTemplatesLoop, hru, List.append_eq]
      rw [ih _ hrest]
      have harith : ms.templatesProcessed + 1 + pre.length
          = ms.templatesProcessed + (pre.length + 1) := by omega
      simp [harith]

theorem mappingNamerTraced_one_compile (outMap : String) (g : Gomplate) (i : String) :
    compileCount (mappingNamerTraced outMap g i).2 = 1 := by
  simp only [mappingNamerTraced]
  cases g.engine.compile outMap with
  | error e => rfl
  | ok u =>
    cases g.engine.render outMap (mappingNamerCtx g i) with
    | error e => rfl
    | ok o => rfl

theorem compileCount_append (a b : List NamerEvent) :
    compileCount (a ++ b) = compileCount a + compileCount b := by
  simp [compileCount, List.filter_append]

/-! ## Concrete fixtures used by the witnesses -/

/-- An engine that always compiles and always renders " a/b.out ". -/
def engineW : TemplateEngine :=
  { compile := fun _ => Except.ok ()
  , render := fun _ _ => Except.ok " a/b.out " }

/-- A gomplate instance with a mapping context holding one plain key. -/
def gW : Gomplate :=
  { engine := engineW
  , context := Value.map [VEntry.mk "X" (Value.str "y")] }

/-- A descriptor that renders fine into a closeable file target. -/
def tplOkW : Tplate :=
  { name := "t1", compileResult := Except.ok (), execResult := Except.ok ()
  , target := { isCloser := true, isStdout := false } }

/-- A descriptor whose execution fails. -/
def tplBadW : Tplate :=
  { name := "t2", compileResult := Except.ok (), execResult := Except.error "boom"
  , target := { isCloser := true, isStdout := false } }

/-- A second fine descriptor. -/
def tplOk2W : Tplate :=
  { name := "t3", compileResult := Except.ok (), execResult := Except.ok ()
  , target := { isCloser := true, isStdout := false } }

/-- A fine descriptor writing to the standard output stream. -/
def tplStdoutW : Tplate :=
  { name := "t4", compileResult := Except.ok (), execResult := Except.ok ()
  , target := { isCloser := true, isStdout := true } }

/-! ## The claims -/

/-- C5: `processIncludes I X` equals `X` when `I` is empty, and otherwise
equals `"*"` followed by each include negated with `"!"` in order,
followed by the excludes in order — blanket-exclude first, then
per-include overrides, then explicit excludes. -/
theorem processIncludes_spec (I X : List String) :
    (I = [] → processIncludes I X = X)
    ∧ (I ≠ [] → processIncludes I X = "*" :: (I.map (fun g => "!" ++ g)) ++ X) := by
  constructor
  · intro h
    subst h
    rfl
  · intro h
    cases I with
    | nil => exact absurd rfl h
    | cons a as =>
      have hpos : (a :: as).length > 0 := Nat.succ_pos _
      simp [processIncludes, hpos]

/-- C5 witness: concrete include/exclude lists. -/
theorem processIncludes_spec_witness :
    processIncludes [] ["x.tmpl"] = ["x.tmpl"]
    ∧ processIncludes ["keep.tmpl"] ["x.tmpl"] = ["*", "!keep.tmpl", "x.tmpl"] :=
  ⟨(processIncludes_spec [] ["x.tmpl"]).1 rfl,
   (processIncludes_spec ["keep.tmpl"] ["x.tmpl"]).2 (by decide)⟩

/-- C7: the static namer returns exactly `clean(join(outputDir, p))`;
it never fails; and the result is normalized: its segment list has no
empty or "." segments, ".." survives only as a leading block, and a
rooted result has no ".." at all. -/
theorem simpleNamer_static_output (outDir p : String) :
    simpleNamer outDir p = Except.ok (specStaticOutput outDir p)
    ∧ segsNormalized (goCleanSegs (goJoin outDir p)) = true
    ∧ (isRooted (goJoin outDir p) = true →
        (goCleanSegs (goJoin outDir p)).all (fun s => s != "..") = true) :=
  ⟨rfl, segsNormalized_goCleanSegs (goJoin outDir p),
   goCleanSegs_rooted_no_dotdot (goJoin outDir p)⟩

/-- C7 witness: a rooted output directory and an input with a ".."
segment. -/
theorem simpleNamer_static_output_witness :
    simpleNamer "/out" "a/../b" = Except.ok "/out/b"
    ∧ segsNormalized (goCleanSegs (goJoin "/out" "a/../b")) = true
    ∧ (goCleanSegs (goJoin "/out" "a/../b")).all (fun s => s != "..") = true :=
  ⟨by rw [(simpleNamer_static_output "/out" "a/../b").1]; rfl,
   (simpleNamer_static_output "/out" "a/../b").2.1,
   (simpleNamer_static_output "/out" "a/../b").2.2 (by decide)⟩

/-- C9: when the descriptor's template compiled, `runTemplate` closes
the target exactly when it is closeable and is not the standard output
stream; and a standard-output target is never closed, for every
descriptor. -/
theorem runTemplate_close_policy (t u : Tplate)
    (hc : t.compileResult = Except.ok ())
    (hu : u.target.isStdout = true) :
    (runTemplate t).2 = (t.target.isCloser && !t.target.isStdout)
    ∧ (runTemplate u).2 = false := by
  constructor
  · simp [runTemplate, hc]
  · unfold runTemplate
    cases u.compileResult with
    | error e => rfl
    | ok _ => simp [hu]

/-- C9 witness: a closeable file target gets closed, a standard-output
target does not. -/
theorem runTemplate_close_policy_witness :
    (runTemplate tplOkW).2 = (tplOkW.target.isCloser && !tplOkW.target.isStdout)
    ∧ (runTemplate tplStdoutW).2 = false :=
  runTemplate_close_policy tplOkW tplStdoutW rfl rfl

/-- C10: namer selection depends only on emptiness of the output map:
the static strategy exactly when `OutputMap = ""`, the dynamic strategy
for every non-empty `OutputMap`. -/
theorem chooseNamer_selection (o : Config) (g : Gomplate) :
    (o.outputMap = "" → chooseNamer o g = simpleNamer o.outputDir)
    ∧ (o.outputMap ≠ "" → chooseNamer o g = mappingNamer o.outputMap g) := by
  constructor
  · intro h
    simp [chooseNamer, h]
  · intro h
    simp [chooseNamer, h]

/-- C10 witness: an empty output map selects the static namer, a
non-empty one the dynamic namer. -/
theorem chooseNamer_selection_witness :
    chooseNamer { outputDir := "d", outputMap := "" } gW = simpleNamer "d"
    ∧ chooseNamer { outputDir := "d", outputMap := "m" } gW = mappingNamer "m" gW :=
  ⟨(chooseNamer_selection { outputDir := "d", outputMap := "" } gW).1 rfl,
   (chooseNamer_selection { outputDir := "d", outputMap := "m" } gW).2 (by decide)⟩

/-- C2: for every input identifier the dynamic namer evaluates the
mapping template against the derived context — mapping entries other
than the reserved keys "in" and "ctx" shallow-copied (nothing copied
for a single root value), "in" set to the input identifier, "ctx" to
the original full context — and the output path is
`clean(trimWhitespace(rendered output))`. -/
theorem mappingNamer_derived_context (g : Gomplate) (outMap inPath out : String)
    (hc : g.engine.compile outMap = Except.ok ())
    (hr : g.engine.render outMap (mappingNamerCtx g inPath) = Except.ok out) :
    mappingNamer outMap g inPath = Except.ok (goClean (trimSpace out))
    ∧ ∀ k, mapLookup (mappingNamerCtx g inPath) k = specDerivedLookup g inPath k := by
  constructor
  · simp [mappingNamer, mappingNamerTraced, hc, hr]
  · intro k
    simp only [mappingNamerCtx, mapSet, specDerivedLookup, List.append_assoc]
    rw [mapLookup_append, mapLookup_append, mapLookup_single, mapLookup_single]
    by_cases hk1 : k = "in"
    · subst hk1
      simp
    · by_cases hk2 : k = "ctx"
      · subst hk2
        have : ("in" : String) ≠ "ctx" := by decide
        simp [this]
      · rw [if_neg (fun h => hk1 h.symm), if_neg (fun h => hk2 h.symm),
            if_neg hk1, if_neg hk2]
        cases hg : g.context with
        | str s => rfl
        | other n => rfl
        | map m =>
          simp only [mapLookup_filter_reserved]
          rw [if_neg (by push_neg; exact ⟨hk1, hk2⟩)]

/-- C2 witness: a mapping context with one plain key; the plain key and
both reserved keys agree with the spec's derived context, and the
output is the cleaned trimmed render result. -/
theorem mappingNamer_derived_context_witness :
    mappingNamer "m" gW "a/b" = Except.ok "a/b.out"
    ∧ mapLookup (mappingNamerCtx gW "a/b") "X" = specDerivedLookup gW "a/b" "X"
    ∧ mapLookup (mappingNamerCtx gW "a/b") "in" = specDerivedLookup gW "a/b" "in" :=
  ⟨by rw [(mappingNamer_derived_context gW "m" "a/b" " a/b.out " rfl rfl).1]; rfl,
   (mappingNamer_derived_context gW "m" "a/b" " a/b.out " rfl rfl).2 "X",
   (mappingNamer_derived_context gW "m" "a/b" " a/b.out " rfl rfl).2 "in"⟩

/-- C3 (amended): the dynamic strategy compiles the mapping-template
string once per input — the closure recompiles it on every invocation,
so naming n inputs performs exactly n compiles. -/
theorem mappingNamer_compiles_per_input (outMap : String) (g : Gomplate)
    (inputs : List String) :
    compileCount (namerEventsOn outMap g inputs) = inputs.length := by
  suffices h : ∀ acc : List NamerEvent,
      compileCount (inputs.foldl (fun a i => a ++ (mappingNamerTraced outMap g i).2) acc)
        = compileCount acc + inputs.length by
    have h0 := h []
    simpa [namerEventsOn, compileCount] using h0
  intro acc
  induction inputs generalizing acc with
  | nil => simp
  | cons i is ih =>
    simp only [List.foldl_cons]
    rw [ih, compileCount_append, mappingNamerTraced_one_compile, List.length_cons]
    omega

/-- C3 counterexample: naming the two inputs "a" and "b" compiles the
mapping template twice — it is not compiled only once. -/
theorem mappingNamer_compile_once_counterexample :
    compileCount (namerEventsOn "m" gW ["a", "b"]) = 2
    ∧ ¬ compileCount (namerEventsOn "m" gW ["a", "b"]) ≤ 1 := by
  constructor
  · rfl
  · decide

/-- C1: the batch loop is fail-fast and sequential: with fresh metrics,
templates run in gathered order; when the template after `pre` fails,
that error is returned, `Errors` is 1, `TemplatesProcessed` counts only
the successes before the failure, and nothing after the failing
descriptor is run; on full success the result is ok and
`TemplatesProcessed` equals the number of descriptors. -/
theorem runTemplates_fail_fast_and_sequential
    (pre post : List Tplate) (t : Tplate) (e : String) (ts : List Tplate)
    (hpre : ∀ u ∈ pre, (runTemplate u).1 = Except.ok ())
    (ht : (runTemplate t).1 = Except.error e)
    (hts : ∀ u ∈ ts, (runTemplate u).1 = Except.ok ()) :
    runTemplates (pre ++ t :: post)
      = (Except.error e,
         { templatesGathered := (pre ++ t :: post).length,
           templatesProcessed := pre.length,
           errors := 1 },
         pre.map Tplate.name ++ [t.name])
    ∧ runTemplates ts
      = (Except.ok (),
         { templatesGathered := ts.length,
           templatesProcessed := ts.length,
           errors := 0 },
         ts.map Tplate.name) := by
  constructor
  · rw [runTemplates, runTemplatesLoop_fail _ pre post t e hpre ht]
    simp [newMetrics]
  · rw [runTemplates, runTemplatesLoop_all_ok _ ts hts]
    simp [newMetrics]

/-- C1 witness: of three templates where the second fails, the first is
processed, the error is returned, `Errors = 1`, and the third is never
run; two good templates fully succeed. -/
theorem runTemplates_fail_fast_witness :
    runTemplates [tplOkW, tplBadW, tplOk2W]
      = (Except.error "boom",
         { templatesGathered := 3, templatesProcessed := 1, errors := 1 },
         ["t1", "t2"])
    ∧ runTemplates [tplOkW, tplOk2W]
      = (Except.ok (),
         { templatesGathered := 2, templatesProcessed := 2, errors := 0 },
         ["t1", "t3"]) :=
  runTemplates_fail_fast_and_sequential [tplOkW] [tplOk2W] tplBadW "boom"
    [tplOkW, tplOk2W] (by decide) rfl (by decide)

/-- A filesystem fixture: one directory with two files and one
sub-directory, plus three plain files. -/
def fsW : Fs :=
  [("d", FsNode.dir
      [{ name := "a", isDir := false },
       { name := "b", isDir := false },
       { name := "sub", isDir := true }]),
   ("p1", FsNode.file), ("p2", FsNode.file), ("p3", FsNode.file)]

/-- C4: a template-alias argument whose path is a directory registers
exactly the directory's immediate non-directory entries, each under
`<prefix>/<entry-name>` mapped to the joined source path; entries that
are directories contribute nothing, and no other key changes. -/
theorem parseTemplateArg_dir_registers (fs : Fs) (arg : String) (ta : GoMap String)
    (files : List DirEntry)
    (hstat : mapLookup fs (argPath arg) = some (FsNode.dir files))
    (hkeys : ((files.filter (fun f => !f.isDir)).map
        (fun f => goJoin (argPfx arg) f.name)).Nodup) :
    parseTemplateArg fs arg ta = Except.ok (ta ++ argWrites fs arg)
    ∧ (∀ f ∈ files, f.isDir = false →
        mapLookup (ta ++ argWrites fs arg) (goJoin (argPfx arg) f.name)
          = some (goJoin (argPath arg) f.name))
    ∧ (∀ k, (∀ f ∈ files, f.isDir = false → k ≠ goJoin (argPfx arg) f.name) →
        mapLookup (ta ++ argWrites fs arg) k = mapLookup ta k) := by
  have hok : argOk fs arg = true := by
    unfold argOk
    rw [hstat]
  have hw : argWrites fs arg = (files.filter (fun f => !f.isDir)).map
      (fun f => (goJoin (argPfx arg) f.name, goJoin (argPath arg) f.name)) := by
    simp only [argWrites]
    rw [hstat]
  refine ⟨parseTemplateArg_ok_eq fs arg ta hok, ?_, ?_⟩
  · intro f hf hfd
    rw [mapLookup_append, hw]
    have hmem : (goJoin (argPfx arg) f.name, goJoin (argPath arg) f.name)
        ∈ (files.filter (fun f => !f.isDir)).map
          (fun f => (goJoin (argPfx arg) f.name, goJoin (argPath arg) f.name)) := by
      exact List.mem_map_of_mem _ (List.mem_filter.mpr ⟨hf, by simp [hfd]⟩)
    have hnd : (((files.filter (fun f => !f.isDir)).map
        (fun f => (goJoin (argPfx arg) f.name, goJoin (argPath arg) f.name))).map
          Prod.fst).Nodup := by
      rw [List.map_map]
      simpa [Function.comp] using hkeys
    rw [mapLookup_of_mem_nodup _ _ _ hnd hmem]
  · intro k hk
    rw [mapLookup_append, hw]
    have hnone : mapLookup ((files.filter (fun f => !f.isDir)).map
        (fun f => (goJoin (argPfx arg) f.name, goJoin (argPath arg) f.name))) k
          = none := by
      apply mapLookup_none_of_not_key
      intro kv hkv
      rcases List.mem_map.mp hkv with ⟨f, hf, rfl⟩
      have hf2 := List.mem_filter.mp hf
      have hfd : f.isDir = false := by simpa using hf2.2
      exact fun hh => (hk f hf2.1 hfd) hh.symm
    rw [hnone]

/-- C4 witness: directory "d" with files "a", "b" and sub-directory
"sub", aliased as "t": both files are registered under "t/...", the
sub-directory is skipped, and an unrelated key is untouched. -/
theorem parseTemplateArg_dir_registers_witness :
    parseTemplateArg fsW "t=d" [] = Except.ok ([] ++ argWrites fsW "t=d")
    ∧ mapLookup ([] ++ argWrites fsW "t=d") (goJoin (argPfx "t=d") "a")
        = some (goJoin (argPath "t=d") "a")
    ∧ mapLookup ([] ++ argWrites fsW "t=d") "t/sub" = mapLookup ([] : GoMap String) "t/sub" :=
  ⟨(parseTemplateArg_dir_registers fsW "t=d" []
      [{ name := "a", isDir := false }, { name := "b", isDir := false },
       { name := "sub", isDir := true }] (by decide) (by decide)).1,
   (parseTemplateArg_dir_registers fsW "t=d" []
      [{ name := "a", isDir := false }, { name := "b", isDir := false },
       { name := "sub", isDir := true }] (by decide) (by decide)).2.1
     { name := "a", isDir := false } (by decide) rfl,
   (parseTemplateArg_dir_registers fsW "t=d" []
      [{ name := "a", isDir := false }, { name := "b", isDir := false },
       { name := "sub", isDir := true }] (by decide) (by decide)).2.2
     "t/sub" (by decide)⟩

/-- C6: when a template-alias argument fails to resolve, alias
resolution returns that error and no map at all, and the run aborts
with that error before anything is gathered or rendered, no matter how
many earlier arguments succeeded. -/
theorem aliasFailure_aborts_run (fs : Fs) (pre post : List String) (bad : String)
    (gathered : List Tplate)
    (hpre : ∀ a ∈ pre, argOk fs a = true)
    (hbad : argOk fs bad = false) :
    parseTemplateArgs fs (pre ++ bad :: post) = Except.error (argErr fs bad)
    ∧ runTemplatesTop fs (pre ++ bad :: post) gathered
        = (Except.error (argErr fs bad), newMetrics, []) := by
  have h1 : parseTemplateArgs fs (pre ++ bad :: post) = Except.error (argErr fs bad) :=
    parseTemplateArgsFrom_err fs pre post bad [] hpre hbad
  exact ⟨h1, by simp [runTemplatesTop, h1]⟩

/-- C6 witness: the second of three arguments names a missing path; the
resolver errors and the run aborts with fresh metrics and nothing
rendered, though a renderable descriptor was available. -/
theorem aliasFailure_aborts_run_witness :
    parseTemplateArgs fsW ["x=p1", "missing", "y=p3"]
      = Except.error (argErr fsW "missing")
    ∧ runTemplatesTop fsW ["x=p1", "missing", "y=p3"] [tplOkW]
      = (Except.error (argErr fsW "missing"), newMetrics, []) :=
  aliasFailure_aborts_run fsW ["x=p1"] ["y=p3"] "missing" [tplOkW]
    (by decide) (by decide)

/-- C8: alias resolution is last-wins: when all arguments resolve, the
alias map binds a key to the value written by the latest argument that
writes it, regardless of earlier writes; duplicate keys are never an
error. -/
theorem parseTemplateArgs_last_wins (fs : Fs) (pre post : List String) (b : String)
    (k v : String)
    (hok : ∀ a ∈ pre ++ b :: post, argOk fs a = true)
    (hb : mapLookup (argWrites fs b) k = some v)
    (hpost : ∀ a ∈ post, mapLookup (argWrites fs a) k = none) :
    parseTemplateArgs fs (pre ++ b :: post) = Except.ok (allWrites fs (pre ++ b :: post))
    ∧ mapLookup (allWrites fs (pre ++ b :: post)) k = some v := by
  constructor
  · have := parseTemplateArgsFrom_ok fs (pre ++ b :: post) [] hok
    simpa [parseTemplateArgs] using this
  · have h2 : mapLookup (allWrites fs post) k = none :=
      mapLookup_allWrites_none fs k post hpost
    rw [allWrites_append, allWrites_cons, mapLookup_append, mapLookup_append, h2, hb]

/-- C8 witness: "x" is declared twice; the map binds "x" to the later
path "p2" while the earlier "p1" is overwritten, with no error. -/
theorem parseTemplateArgs_last_wins_witness :
    parseTemplateArgs fsW ["x=p1", "x=p2", "y=p3"]
      = Except.ok (allWrites fsW ["x=p1", "x=p2", "y=p3"])
    ∧ mapLookup (allWrites fsW ["x=p1", "x=p2", "y=p3"]) "x" = some "p2" :=
  parseTemplateArgs_last_wins fsW ["x=p1"] ["y=p3"] "x=p2" "x" "p2"
    (by decide) (by decide) (by decide)
